import Mathlib

/-!
Verification development for the fmusdk co-simulation master
(`src/co_simulation/fmusim_cs_master/main.c`).

The embedding below transcribes the `simulate` and `main` functions of that
file.  Slaves (FMUs) are external black boxes behind the FMI function-pointer
table, so their behaviour is supplied as parameters (`Env`): whether
`instantiateSlave` returns a non-null handle, whether `fopen` of the result
file succeeds, the status returned by `initializeSlave`, the state transform
and status of `doStep`, and the typed value stores read and written by
`fmiGetXXX`/`fmiSetXXX`.  The master's own logic — the connection-resolution
loops, the type dispatch, the step loop, the clock, the output rows, the
cleanup section and the return values — is translated statement by statement
from the C source.  `fmiReal` values and simulation time are modelled as
exact rationals.
-/

namespace FmuSim

/-- Scalar variable types, the `Elm` values stored in `typeSpec->type`
(cases of the `switch` at main.c:152). -/
inductive ScalarType
  | elm_Real
  | elm_Integer
  | elm_Boolean
  | elm_String
  | elm_Enumeration
  deriving DecidableEq, Repr

/-- Alias kinds of a scalar variable, as returned by `getAlias`. -/
inductive AliasKind
  | enu_noAlias
  | enu_alias
  | enu_negatedAlias
  deriving DecidableEq, Repr

/-- One `ScalarVariable` descriptor of a model description: its value
reference (`getValueReference`), its alias kind (`getAlias`) and its scalar
type (`typeSpec->type`). -/
structure ScalarVariable where
  valueReference : ℕ
  aliasKind : AliasKind
  type : ScalarType
  deriving DecidableEq, Repr

/-- A model description: the NULL-terminated `modelVariables` array,
as a list in declaration order. -/
structure FMUDesc where
  modelVariables : List ScalarVariable
  deriving DecidableEq, Repr

/-- One connection, i.e. the quadruple
`connections[ci*4] .. connections[ci*4+3]` read at main.c:132-135. -/
structure Connection where
  fmuFrom : ℕ
  vrFrom : ℕ
  fmuTo : ℕ
  vrTo : ℕ
  deriving DecidableEq, Repr

/-- FMI status codes (`fmiStatus`), in declaration order. -/
inductive Status
  | fmiOK
  | fmiWarning
  | fmiDiscard
  | fmiError
  | fmiFatal
  | fmiPending
  deriving DecidableEq, Repr

/-- Numeric value of a status code, following the C enum order. -/
def Status.toNat : Status → ℕ
  | .fmiOK => 0
  | .fmiWarning => 1
  | .fmiDiscard => 2
  | .fmiError => 3
  | .fmiFatal => 4
  | .fmiPending => 5

/-- The test `fmiFlag > fmiWarning` of main.c:98. -/
def Status.gtWarning (s : Status) : Bool := decide (Status.toNat .fmiWarning < s.toNat)

/-- The typed value stores of one instantiated slave: what the slave's
`fmiGetReal`/`fmiSetReal` (and the integer, boolean and string pairs)
read and write, keyed by value reference. -/
structure CompState where
  realV : ℕ → ℚ
  intV : ℕ → ℤ
  boolV : ℕ → Bool
  strV : ℕ → String

/-- Value stores of a slave before anything was set: all zero. -/
def defaultComp : CompState :=
  { realV := fun _ => 0, intV := fun _ => 0, boolV := fun _ => false, strV := fun _ => "" }

/-- States of all slaves, indexed like the C array `c[]`. -/
def States := ℕ → CompState

/-- Replace the state of slave `i`. -/
def updComp (sts : States) (i : ℕ) (c : CompState) : States :=
  fun j => if j = i then c else sts j

/-- Effect of `fmiSetReal(c, &vr, 1, &v)` on a slave's stores. -/
def setRealS (c : CompState) (vr : ℕ) (v : ℚ) : CompState :=
  { c with realV := fun x => if x = vr then v else c.realV x }

/-- Effect of `fmiSetInteger(c, &vr, 1, &v)` on a slave's stores. -/
def setIntS (c : CompState) (vr : ℕ) (v : ℤ) : CompState :=
  { c with intV := fun x => if x = vr then v else c.intV x }

/-- Effect of `fmiSetBoolean(c, &vr, 1, &v)` on a slave's stores. -/
def setBoolS (c : CompState) (vr : ℕ) (v : Bool) : CompState :=
  { c with boolV := fun x => if x = vr then v else c.boolV x }

/-- Effect of `fmiSetString(c, &vr, 1, &v)` on a slave's stores. -/
def setStrS (c : CompState) (vr : ℕ) (v : String) : CompState :=
  { c with strV := fun x => if x = vr then v else c.strV x }

/-- The four getter/setter pairs of the FMI interface. -/
inductive Chan
  | realCh
  | intCh
  | boolCh
  | strCh
  deriving DecidableEq, Repr

/-- Observable events of a run: a typed get call, a typed set call, or a
`doStep` call of one slave at one time. -/
inductive Ev
  | getE (ch : Chan) (fmu : ℕ) (vr : ℕ)
  | setE (ch : Chan) (fmu : ℕ) (vr : ℕ)
  | stepE (fmu : ℕ) (t : ℚ)
  deriving DecidableEq, Repr

/-- Whether an event is a `doStep` call. -/
def Ev.isStep : Ev → Bool
  | .stepE _ _ => true
  | _ => false

/-- A typed value, for observing one slot of a slave's stores. -/
inductive Value
  | vR (r : ℚ)
  | vI (i : ℤ)
  | vB (b : Bool)
  | vS (s : String)
  deriving DecidableEq, Repr

/-- Read one slot of a slave's stores on the given channel. -/
def readVal : Chan → CompState → ℕ → Value
  | .realCh, c, vr => .vR (c.realV vr)
  | .intCh, c, vr => .vI (c.intV vr)
  | .boolCh, c, vr => .vB (c.boolV vr)
  | .strCh, c, vr => .vS (c.strV vr)

/-- Which getter/setter pair the `switch` at main.c:152 uses for each scalar
type: `elm_Integer` and `elm_Enumeration` share the integer pair. -/
def chanOf : ScalarType → Chan
  | .elm_Real => .realCh
  | .elm_Integer => .intCh
  | .elm_Enumeration => .intCh
  | .elm_Boolean => .boolCh
  | .elm_String => .strCh

/-- The transfer of one value (body of the `switch` at main.c:152-172): one
typed get on the source slave at `vrFrom` followed by one typed set on the
target slave at `vrTo`, dispatched on the scalar type `ty`. -/
def transfer (ty : ScalarType) (fmuFrom vrFrom fmuTo vrTo : ℕ) (sts : States) :
    States × List Ev :=
  match ty with
  | .elm_Real =>
      let r := (sts fmuFrom).realV vrFrom
      (updComp sts fmuTo (setRealS (sts fmuTo) vrTo r),
       [Ev.getE .realCh fmuFrom vrFrom, Ev.setE .realCh fmuTo vrTo])
  | .elm_Integer =>
      let ii := (sts fmuFrom).intV vrFrom
      (updComp sts fmuTo (setIntS (sts fmuTo) vrTo ii),
       [Ev.getE .intCh fmuFrom vrFrom, Ev.setE .intCh fmuTo vrTo])
  | .elm_Enumeration =>
      let ii := (sts fmuFrom).intV vrFrom
      (updComp sts fmuTo (setIntS (sts fmuTo) vrTo ii),
       [Ev.getE .intCh fmuFrom vrFrom, Ev.setE .intCh fmuTo vrTo])
  | .elm_Boolean =>
      let b := (sts fmuFrom).boolV vrFrom
      (updComp sts fmuTo (setBoolS (sts fmuTo) vrTo b),
       [Ev.getE .boolCh fmuFrom vrFrom, Ev.setE .boolCh fmuTo vrTo])
  | .elm_String =>
      let s := (sts fmuFrom).strV vrFrom
      (updComp sts fmuTo (setStrS (sts fmuTo) vrTo s),
       [Ev.getE .strCh fmuFrom vrFrom, Ev.setE .strCh fmuTo vrTo])

/-- The diagnostic printed at main.c:176 for an incompatible connection. -/
def mismatchMsg (fmuFrom vrFrom fmuTo vrTo : ℕ) : String :=
  "Connection between FMU " ++ toString fmuFrom ++ " (value ref " ++ toString vrFrom ++
    ") and " ++ toString fmuTo ++ " (value ref " ++ toString vrTo ++
    ") had incompatible data types!"

/-- Inner loop of the exchange engine (main.c:144-178): scan the target
FMU's variables with index `l` while `!found`; aliases are skipped
(main.c:146).  The type test at main.c:149 is transcribed literally: the C
source compares `svFrom->typeSpec->type == svFrom->typeSpec->type`, i.e. the
source type with itself, so the `else` branch (the mismatch diagnostic) is
dead and the target descriptor's value reference is never compared with
`vrTo`.  Returns (states, found, printed diagnostics, get/set events). -/
def innerLoop (svFrom : ScalarVariable) (fmuFrom vrFrom fmuTo vrTo : ℕ) :
    List ScalarVariable → States → States × Bool × List String × List Ev
  | [], sts => (sts, false, [], [])
  | svTo :: rest, sts =>
      if svTo.aliasKind ≠ AliasKind.enu_noAlias then
        innerLoop svFrom fmuFrom vrFrom fmuTo vrTo rest sts
      else
        if svFrom.type = svFrom.type then
          let r := transfer svFrom.type fmuFrom vrFrom fmuTo vrTo sts
          (r.1, true, [], r.2)
        else
          let r := innerLoop svFrom fmuFrom vrFrom fmuTo vrTo rest sts
          (r.1, r.2.1, mismatchMsg fmuFrom vrFrom fmuTo vrTo :: r.2.2.1, r.2.2.2)

/-- Outer loop of the exchange engine (main.c:136-180): scan the source
FMU's variables with index `k` while `!found`; aliases are skipped
(main.c:138), and a descriptor is considered only when
`vrFrom == getValueReference(svFrom)` (main.c:141).  If the inner loop did
not set `found`, scanning continues. -/
def outerLoop (fmuFrom vrFrom fmuTo vrTo : ℕ) (dstVars : List ScalarVariable) :
    List ScalarVariable → States → States × Bool × List String × List Ev
  | [], sts => (sts, false, [], [])
  | svFrom :: rest, sts =>
      if svFrom.aliasKind ≠ AliasKind.enu_noAlias then
        outerLoop fmuFrom vrFrom fmuTo vrTo dstVars rest sts
      else
        if vrFrom = svFrom.valueReference then
          let r := innerLoop svFrom fmuFrom vrFrom fmuTo vrTo dstVars sts
          if r.2.1 then (r.1, true, r.2.2.1, r.2.2.2)
          else
            let r2 := outerLoop fmuFrom vrFrom fmuTo vrTo dstVars rest r.1
            (r2.1, r2.2.1, r.2.2.1 ++ r2.2.2.1, r.2.2.2 ++ r2.2.2.2)
        else outerLoop fmuFrom vrFrom fmuTo vrTo dstVars rest sts

/-- Processing of one connection (body of the `ci` loop, main.c:130-181):
reset `found`, read the quadruple, and run the two resolution loops.
Returns (states, printed diagnostics, get/set events). -/
def exchangeConnection (fmus : ℕ → FMUDesc) (sts : States) (conn : Connection) :
    States × List String × List Ev :=
  let r := outerLoop conn.fmuFrom conn.vrFrom conn.fmuTo conn.vrTo
      (fmus conn.fmuTo).modelVariables (fmus conn.fmuFrom).modelVariables sts
  (r.1, r.2.2.1, r.2.2.2)

/-- The whole exchange phase of one loop iteration (the `ci` loop at
main.c:130): process every connection in list order, threading the states. -/
def exchangeAll (fmus : ℕ → FMUDesc) :
    List Connection → States → States × List String × List Ev
  | [], sts => (sts, [], [])
  | conn :: rest, sts =>
      let r1 := exchangeConnection fmus sts conn
      let r2 := exchangeAll fmus rest r1.1
      (r2.1, r1.2.1 ++ r2.2.1, r1.2.2 ++ r2.2.2)

/-- Resolution as the specification words it: the first descriptor of the
table with alias kind `None` and the given value reference, if any.
This definition follows the spec text and is compared against the code's
scan loops in the theorems below. -/
def specResolve (vars : List ScalarVariable) (vr : ℕ) : Option ScalarVariable :=
  vars.find? (fun sv => sv.aliasKind == AliasKind.enu_noAlias && sv.valueReference == vr)

/-- Whether a descriptor table has any non-alias entry. -/
def hasNoAlias (vars : List ScalarVariable) : Bool :=
  vars.any (fun sv => sv.aliasKind == AliasKind.enu_noAlias)

/-- Behaviour of the external collaborators of `simulate`, supplied per run:
the model descriptions, the connection table, the time parameters, and the
outcome of every call that crosses the FMI boundary or the file system. -/
structure Env where
  /-- Number of FMUs (`N`). -/
  N : ℕ
  /-- Model description of each FMU (`fmus[i]->modelDescription`). -/
  fmus : ℕ → FMUDesc
  /-- The connection table (`connections`, `M` quadruples). -/
  connections : List Connection
  /-- End time `tEnd`. -/
  tEnd : ℚ
  /-- Fixed step size `h`. -/
  h : ℚ
  /-- Whether `instantiateSlave` returns a non-null handle for FMU `i`
  (main.c:82-83). -/
  instOk : ℕ → Bool
  /-- Whether `fopen` of `result<i>.csv` succeeds (main.c:90). -/
  fopenOk : ℕ → Bool
  /-- Status returned by `initializeSlave` for FMU `i` (main.c:97). -/
  initStatus : ℕ → Status
  /-- Value stores of FMU `i` right after successful initialization. -/
  init0 : ℕ → CompState
  /-- Behaviour of `doStep(c[i], time, h, fmiTrue)` (main.c:185): the slave's
  new value stores and the returned status. -/
  doStepF : ℕ → ℚ → CompState → CompState × Status

/-- Start time: `double tStart = 0` (main.c:45). -/
def tStart : ℚ := 0

/-- One output record: which FMU, at which time, and whether it is the
header line (`outputRow(..., TRUE)`) or a value line. The concrete text
serialization is the external `outputRow` collaborator's concern. -/
structure Row where
  comp : ℕ
  time : ℚ
  header : Bool
  deriving DecidableEq, Repr

/-- The value rows written after an advance (main.c:197-199), one per FMU in
index order. -/
def valueRows (n : ℕ) (t : ℚ) : List Row :=
  (List.range n).map (fun i => { comp := i, time := t, header := false })

/-- Mutable state of the simulation loop: the clock, the `status` variable,
the slave states, and the accumulated observable output (rows, printed
diagnostics, FMI-call events, `nSteps`). -/
structure LoopState where
  time : ℚ
  status : Status
  sts : States
  rows : List Row
  logs : List String
  trace : List Ev
  nSteps : ℕ

/-- The step phase of one iteration (main.c:184-191): call `doStep` on FMUs
`i, i+1, ...` (`n` of them) in index order, stopping at the first call whose
status is not `fmiOK`.  Returns the states, the `stepE` events of the calls
made, and the index and status of the failing call, if any. -/
def stepLoop (env : Env) (t : ℚ) : ℕ → ℕ → States → States × List Ev × Option (ℕ × Status)
  | _, 0, sts => (sts, [], none)
  | i, n+1, sts =>
      let r := env.doStepF i t (sts i)
      let sts1 := updComp sts i r.1
      if r.2 ≠ Status.fmiOK then (sts1, [Ev.stepE i t], some (i, r.2))
      else
        let rest := stepLoop env t (i+1) n sts1
        (rest.1, Ev.stepE i t :: rest.2.1, rest.2.2)

/-- Result of the exchange phase of one iteration from loop state `ls`. -/
def bodyXchg (env : Env) (ls : LoopState) : States × List String × List Ev :=
  exchangeAll env.fmus env.connections ls.sts

/-- Result of the step phase of one iteration from loop state `ls` (run on
the states left by the exchange phase). -/
def bodyStep (env : Env) (ls : LoopState) : States × List Ev × Option (ℕ × Status) :=
  stepLoop env ls.time 0 env.N (bodyXchg env ls).1

/-- The diagnostic printed at main.c:188 when `doStep` of FMU `i` fails. -/
def stepFailMsg (i : ℕ) : String :=
  "doStep() of model " ++ toString i ++ " did not return fmiOK! Exiting..."

/-- Loop state at the moment `simulate` executes `return 0` at main.c:189:
the exchange already ran, the step loop ran up to and including the failing
call, `time`, `rows` and `nSteps` are untouched. -/
def failState (env : Env) (ls : LoopState) (i : ℕ) : LoopState :=
  { ls with sts := (bodyStep env ls).1,
            logs := ls.logs ++ (bodyXchg env ls).2.1 ++ [stepFailMsg i],
            trace := ls.trace ++ (bodyXchg env ls).2.2 ++ (bodyStep env ls).2.1 }

/-- Loop state after a fully successful iteration: exchange, all steps OK,
`time += h` (main.c:194), one value row per FMU at the new time
(main.c:197-199), `nSteps++` (main.c:200). -/
def advState (env : Env) (ls : LoopState) : LoopState :=
  { time := ls.time + env.h,
    status := ls.status,
    sts := (bodyStep env ls).1,
    rows := ls.rows ++ valueRows env.N (ls.time + env.h),
    logs := ls.logs ++ (bodyXchg env ls).2.1,
    trace := ls.trace ++ (bodyXchg env ls).2.2 ++ (bodyStep env ls).2.1,
    nSteps := ls.nSteps + 1 }

/-- Control state of the `while` loop: still iterating, exited normally
(guard became false), or exited through `return 0` after a failed `doStep`
(which FMU, which status). -/
inductive LoopSt
  | running (ls : LoopState)
  | exitedOk (ls : LoopState)
  | exitedFail (ls : LoopState) (i : ℕ) (flag : Status)

/-- One iteration attempt of the `while` loop at main.c:120: if the guard
`time < tEnd && status == fmiOK` holds, run the body (exchange then steps,
then advance/output, or exit on a failed step); otherwise leave the loop.
Exited states are absorbing. -/
def loopStep (env : Env) : LoopSt → LoopSt
  | .running ls =>
      if ls.time < env.tEnd ∧ ls.status = Status.fmiOK then
        match (bodyStep env ls).2.2 with
        | some p => .exitedFail (failState env ls p.1) p.1 p.2
        | none => .running (advState env ls)
      else .exitedOk ls
  | s => s

/-- The loop state after `n` iteration attempts. -/
def loopIter (env : Env) : ℕ → LoopSt → LoopSt
  | 0, s => s
  | n+1, s => loopStep env (loopIter env n s)

/-- Clock value of a loop control state. -/
def stTime : LoopSt → ℚ
  | .running ls => ls.time
  | .exitedOk ls => ls.time
  | .exitedFail ls _ _ => ls.time

/-- Rows of a loop control state. -/
def stRows : LoopSt → List Row
  | .running ls => ls.rows
  | .exitedOk ls => ls.rows
  | .exitedFail ls _ _ => ls.rows

/-- Event trace of a loop control state. -/
def stTrace : LoopSt → List Ev
  | .running ls => ls.trace
  | .exitedOk ls => ls.trace
  | .exitedFail ls _ _ => ls.trace

/-- Step count of a loop control state. -/
def stNSteps : LoopSt → ℕ
  | .running ls => ls.nSteps
  | .exitedOk ls => ls.nSteps
  | .exitedFail ls _ _ => ls.nSteps

/-- Whether the loop is still iterating. -/
def isRunningB : LoopSt → Bool
  | .running _ => true
  | _ => false

/-- Whether the loop exited through the failed-step `return 0`. -/
def isFailB : LoopSt → Bool
  | .exitedFail _ _ _ => true
  | _ => false

/-- Where the per-FMU setup loop of `simulate` (main.c:77-107) aborted. -/
inductive FailStage
  | instStage
  | fileStage
  | initStage
  deriving DecidableEq, Repr

/-- Abort record of the setup loop: the stage, the FMU index, the value
`simulate` returns, and the rows already written when it aborted. -/
structure InitFail where
  stage : FailStage
  comp : ℕ
  ret : Int
  rows : List Row
  deriving DecidableEq, Repr

/-- Modelled from the spec: the helper `error(const char*)` called at
main.c:83 lives in `sim_support.c`, which is not part of this source tree.
Per the spec, an instantiation failure is fatal and the run must be
reported as failed, so the helper's return value is the failure indicator 0
(the same value the sibling abort paths at main.c:93 and main.c:100 return
explicitly). -/
def errorRet : Int := 0

/-- The per-FMU setup loop of `simulate` (main.c:77-107), for FMUs
`i, i+1, ...` (`n` of them): instantiate (abort with `error(...)` on a null
handle, main.c:83), open the result file (abort returning 0, main.c:93),
initialize (abort returning 0 if the status is worse than `fmiWarning`,
main.c:100), then write the header row and the `tStart` value row
(main.c:104-105).  Note that each FMU runs this whole sequence before the
next FMU is even instantiated. -/
def initLoop (env : Env) : ℕ → ℕ → States → List Row → InitFail ⊕ (States × List Row)
  | _, 0, sts, rows => .inr (sts, rows)
  | i, n+1, sts, rows =>
      if env.instOk i = false then .inl ⟨.instStage, i, errorRet, rows⟩
      else if env.fopenOk i = false then .inl ⟨.fileStage, i, 0, rows⟩
      else if (env.initStatus i).gtWarning = true then .inl ⟨.initStage, i, 0, rows⟩
      else
        initLoop env (i+1) n (updComp sts i (env.init0 i))
          (rows ++ [⟨i, tStart, true⟩, ⟨i, tStart, false⟩])

/-- The setup loop as `simulate` runs it: from FMU 0 over all `N` FMUs,
starting with zeroed stores and no rows. -/
def initRes (env : Env) : InitFail ⊕ (States × List Row) :=
  initLoop env 0 env.N (fun _ => defaultComp) []

/-- The abort record of the setup loop, if it aborted. -/
def initFailP (env : Env) : Option InitFail :=
  match initRes env with
  | .inl f => some f
  | .inr _ => none

/-- The loop state `simulate` enters the `while` loop with
(`time = tStart`, main.c:110; `status = fmiOK`, main.c:49). -/
def initLS (env : Env) : LoopState :=
  { time := tStart, status := .fmiOK,
    sts := (match initRes env with | .inl _ => fun _ => defaultComp | .inr p => p.1),
    rows := (match initRes env with | .inl f => f.rows | .inr p => p.2),
    logs := [], trace := [], nSteps := 0 }

/-- The `while` loop of `simulate`, run for at most `fuel` iteration
attempts (the C loop has no iteration bound; `fuel` only truncates the
observation window). -/
def loopRun (env : Env) (fuel : ℕ) : LoopSt :=
  loopIter env fuel (.running (initLS env))

/-- Everything observable about one call of `simulate` (main.c:42-219):
its return value (`none` when the loop had not exited within `fuel`
iterations), the rows and diagnostics produced, the FMI call events, which
FMUs were successfully instantiated and initialized, which received
`terminateSlave` and `freeSlaveInstance` calls, and the final `nSteps`. -/
structure SimResult where
  ret : Option Int
  rows : List Row
  logs : List String
  trace : List Ev
  instantiated : List ℕ
  initialized : List ℕ
  terminated : List ℕ
  disposed : List ℕ
  nSteps : ℕ

/-- The `simulate` function (main.c:42-219).  The setup loop may abort
(returning `error(...)` or 0) before the `while` loop; a failed `doStep`
returns 0 from inside the loop (main.c:189); only the normal loop exit
reaches the cleanup section at main.c:204-207, where every FMU gets
`terminateSlave` then `freeSlaveInstance`, and `simulate` returns 1
(main.c:218).  The `instantiated`/`initialized` lists record which FMI
calls succeeded on each path. -/
def simulate (env : Env) (fuel : ℕ) : SimResult :=
  match initRes env with
  | .inl f =>
      { ret := some f.ret, rows := f.rows, logs := [], trace := [],
        instantiated :=
          (match f.stage with
           | .instStage => List.range f.comp
           | _ => List.range (f.comp + 1)),
        initialized := List.range f.comp,
        terminated := [], disposed := [], nSteps := 0 }
  | .inr _ =>
      match loopRun env fuel with
      | .running ls =>
          { ret := none, rows := ls.rows, logs := ls.logs, trace := ls.trace,
            instantiated := List.range env.N, initialized := List.range env.N,
            terminated := [], disposed := [], nSteps := ls.nSteps }
      | .exitedFail ls _ _ =>
          { ret := some 0, rows := ls.rows, logs := ls.logs, trace := ls.trace,
            instantiated := List.range env.N, initialized := List.range env.N,
            terminated := [], disposed := [], nSteps := ls.nSteps }
      | .exitedOk ls =>
          { ret := some 1, rows := ls.rows, logs := ls.logs, trace := ls.trace,
            instantiated := List.range env.N, initialized := List.range env.N,
            terminated := List.range env.N, disposed := List.range env.N,
            nSteps := ls.nSteps }

/-- `EXIT_SUCCESS`. -/
def EXIT_SUCCESS : Int := 0

/-- The `main` function (main.c:221-263), after argument parsing and FMU
loading (external collaborators): it calls `simulate` at main.c:243,
discards simulate's return value, and returns `EXIT_SUCCESS`
unconditionally at main.c:262. -/
def mainRun (env : Env) (fuel : ℕ) : SimResult × Int :=
  (simulate env fuel, EXIT_SUCCESS)

/-! Concrete fixtures used to exercise the embedding on small inputs. -/

/-- Stores whose real slot 1 holds 7, everything else zero. -/
def compSeven : CompState :=
  { defaultComp with realV := fun vr => if vr = 1 then 7 else 0 }

/-- Two slaves: slave 0 holds 7 in real slot 1, slave 1 is zeroed. -/
def stsTest : States := fun i => if i = 0 then compSeven else defaultComp

/-- FMU 0 exports a Real with value reference 1; FMU 1 declares an Integer
with value reference 2.  A connection 0/1 → 1/2 is type-mismatched. -/
def fmusMismatch : ℕ → FMUDesc := fun i =>
  if i = 0 then ⟨[⟨1, .enu_noAlias, .elm_Real⟩]⟩ else ⟨[⟨2, .enu_noAlias, .elm_Integer⟩]⟩

/-- FMU 0 exports a Real with value reference 1; FMU 1 declares only a Real
with value reference 5, so a connection targeting reference 2 has no
matching target descriptor. -/
def fmusNoTargetVr : ℕ → FMUDesc := fun i =>
  if i = 0 then ⟨[⟨1, .enu_noAlias, .elm_Real⟩]⟩ else ⟨[⟨5, .enu_noAlias, .elm_Real⟩]⟩

/-- FMU 0 declares only a Real with value reference 9, so a connection
sourced at reference 1 has no matching source descriptor. -/
def fmusNoSource : ℕ → FMUDesc := fun i =>
  if i = 0 then ⟨[⟨9, .enu_noAlias, .elm_Real⟩]⟩ else ⟨[⟨2, .enu_noAlias, .elm_Real⟩]⟩

/-- FMU 0 exports a Real with value reference 1; FMU 1 declares a Real with
value reference 2: a well-typed, resolvable connection 0/1 → 1/2. -/
def fmusMatch : ℕ → FMUDesc := fun i =>
  if i = 0 then ⟨[⟨1, .enu_noAlias, .elm_Real⟩]⟩ else ⟨[⟨2, .enu_noAlias, .elm_Real⟩]⟩

/-- The connection (source FMU 0, reference 1, target FMU 1, reference 2). -/
def connTest : Connection := ⟨0, 1, 1, 2⟩

/-- A run of one FMU with no connections whose `doStep` always returns
`fmiError`; instantiation, file opening and initialization succeed. -/
def envStepFail : Env :=
  { N := 1, fmus := fun _ => ⟨[]⟩, connections := [], tEnd := 1, h := 1,
    instOk := fun _ => true, fopenOk := fun _ => true,
    initStatus := fun _ => .fmiOK, init0 := fun _ => defaultComp,
    doStepF := fun _ _ c => (c, .fmiError) }

/-- A run of two FMUs where instantiation of FMU 1 returns a null handle
while FMU 0 sets up completely. -/
def envInstFail2 : Env :=
  { N := 2, fmus := fun _ => ⟨[]⟩, connections := [], tEnd := 1, h := 1,
    instOk := fun i => decide (i = 0), fopenOk := fun _ => true,
    initStatus := fun _ => .fmiOK, init0 := fun _ => defaultComp,
    doStepF := fun _ _ c => (c, .fmiOK) }

/-- A trivial all-successful run with no FMUs and a negative step size. -/
def envNeg : Env :=
  { N := 0, fmus := fun _ => ⟨[]⟩, connections := [], tEnd := 1, h := -1,
    instOk := fun _ => true, fopenOk := fun _ => true,
    initStatus := fun _ => .fmiOK, init0 := fun _ => defaultComp,
    doStepF := fun _ _ c => (c, .fmiOK) }

/-- A trivial all-successful run with no FMUs, step size 1 and end time 2. -/
def envPos : Env :=
  { N := 0, fmus := fun _ => ⟨[]⟩, connections := [], tEnd := 2, h := 1,
    instOk := fun _ => true, fopenOk := fun _ => true,
    initStatus := fun _ => .fmiOK, init0 := fun _ => defaultComp,
    doStepF := fun _ _ c => (c, .fmiOK) }

/-- A loop state at clock value `t` with empty history and zeroed slaves. -/
def lsAt (t : ℚ) : LoopState :=
  { time := t, status := .fmiOK, sts := fun _ => defaultComp,
    rows := [], logs := [], trace := [], nSteps := 0 }

/-- A run of two slaves wired by `connTest` with matching Real endpoints;
all FMI calls succeed. -/
def envLoop : Env :=
  { N := 2, fmus := fmusMatch, connections := [connTest], tEnd := 1, h := 1,
    instOk := fun _ => true, fopenOk := fun _ => true,
    initStatus := fun _ => .fmiOK,
    init0 := fun i => if i = 0 then compSeven else defaultComp,
    doStepF := fun _ _ c => (c, .fmiOK) }

/-- The loop state at `tStart` whose slave states are `stsTest`. -/
def lsTest : LoopState := { lsAt 0 with sts := stsTest }

/-- The header row and the `tStart` value row of `k` consecutive FMUs
starting at index `i` (what the setup loop writes at main.c:104-105). -/
def segRows (i : ℕ) : ℕ → List Row
  | 0 => []
  | k+1 => [⟨i, tStart, true⟩, ⟨i, tStart, false⟩] ++ segRows (i+1) k

/-- The number of fully successful iterations an all-successful run with a
positive step size performs: the least `K` with `K * h ≥ tEnd`. -/
def stepsNeeded (env : Env) : ℕ := (Int.ceil (env.tEnd / env.h)).toNat

/-! Helper lemmas about the exchange engine. -/

theorem transfer_events (ty : ScalarType) (f vf t vt : ℕ) (sts : States) :
    (transfer ty f vf t vt sts).2 =
      [Ev.getE (chanOf ty) f vf, Ev.setE (chanOf ty) t vt] := by
  cases ty <;> rfl

theorem transfer_read (ty : ScalarType) (f vf t vt : ℕ) (sts : States) :
    readVal (chanOf ty) ((transfer ty f vf t vt sts).1 t) vt =
      readVal (chanOf ty) (sts f) vf := by
  cases ty <;>
    simp [transfer, chanOf, readVal, updComp, setRealS, setIntS, setBoolS, setStrS]

theorem innerLoop_of_hasNoAlias (svFrom : ScalarVariable) (f vf t vt : ℕ) :
    ∀ (dst : List ScalarVariable) (sts : States), hasNoAlias dst = true →
      innerLoop svFrom f vf t vt dst sts =
        ((transfer svFrom.type f vf t vt sts).1, true, [],
          (transfer svFrom.type f vf t vt sts).2) := by
  intro dst
  induction dst with
  | nil => intro sts h; simp [hasNoAlias] at h
  | cons a rest ih =>
      intro sts h
      by_cases ha : a.aliasKind = AliasKind.enu_noAlias
      · simp [innerLoop, ha]
      · have hrest : hasNoAlias rest = true := by
          simp only [hasNoAlias, List.any_cons, Bool.or_eq_true, beq_iff_eq] at h
          rcases h with h | h
          · exact absurd h ha
          · simpa [hasNoAlias] using h
        simp [innerLoop, ha, ih sts hrest]

theorem innerLoop_of_noNoAlias (svFrom : ScalarVariable) (f vf t vt : ℕ) :
    ∀ (dst : List ScalarVariable) (sts : States), hasNoAlias dst = false →
      innerLoop svFrom f vf t vt dst sts = (sts, false, [], []) := by
  intro dst
  induction dst with
  | nil => intro sts _; rfl
  | cons a rest ih =>
      intro sts h
      simp only [hasNoAlias, List.any_cons, Bool.or_eq_false_iff, beq_eq_false_iff_ne] at h
      have ha : a.aliasKind ≠ AliasKind.enu_noAlias := h.1
      have hrest : hasNoAlias rest = false := by
        simpa [hasNoAlias] using h.2
      simp [innerLoop, ha, ih sts hrest]

theorem outerLoop_of_notFound (f t vt : ℕ) (dst : List ScalarVariable) :
    ∀ (src : List ScalarVariable) (vr : ℕ) (sts : States),
      specResolve src vr = none →
      outerLoop f vr t vt dst src sts = (sts, false, [], []) := by
  intro src
  induction src with
  | nil => intro vr sts _; rfl
  | cons a rest ih =>
      intro vr sts h
      unfold specResolve at h
      by_cases hp : (a.aliasKind == AliasKind.enu_noAlias && a.valueReference == vr) = true
      · have hfind : List.find? (fun sv => sv.aliasKind == AliasKind.enu_noAlias && sv.valueReference == vr) (a :: rest) = some a :=
          List.find?_cons_of_pos _ hp
        rw [hfind] at h
        simp at h
      · have hfind : List.find? (fun sv => sv.aliasKind == AliasKind.enu_noAlias && sv.valueReference == vr) (a :: rest) = List.find? (fun sv => sv.aliasKind == AliasKind.enu_noAlias && sv.valueReference == vr) rest :=
          List.find?_cons_of_neg _ hp
        rw [hfind] at h
        have hrest : specResolve rest vr = none := h
        simp only [Bool.and_eq_true, beq_iff_eq, not_and] at hp
        by_cases ha : a.aliasKind = AliasKind.enu_noAlias
        · have hv : vr ≠ a.valueReference := fun hvr => hp ha hvr.symm
          simp [outerLoop, ha, hv, ih vr sts hrest]
        · simp [outerLoop, ha, ih vr sts hrest]

theorem outerLoop_of_found (f t vt : ℕ) (dst : List ScalarVariable)
    (hdst : hasNoAlias dst = true) :
    ∀ (src : List ScalarVariable) (vr : ℕ) (sv : ScalarVariable) (sts : States),
      specResolve src vr = some sv →
      outerLoop f vr t vt dst src sts =
        ((transfer sv.type f vr t vt sts).1, true, [],
          (transfer sv.type f vr t vt sts).2) := by
  intro src
  induction src with
  | nil => intro vr sv sts h; simp [specResolve] at h
  | cons a rest ih =>
      intro vr sv sts h
      unfold specResolve at h
      by_cases hp : (a.aliasKind == AliasKind.enu_noAlias && a.valueReference == vr) = true
      · have hfind : List.find? (fun sv => sv.aliasKind == AliasKind.enu_noAlias && sv.valueReference == vr) (a :: rest) = some a :=
          List.find?_cons_of_pos _ hp
        rw [hfind] at h
        injection h with h
        subst h
        simp only [Bool.and_eq_true, beq_iff_eq] at hp
        simp [outerLoop, hp.1, hp.2.symm, innerLoop_of_hasNoAlias a f a.valueReference t vt dst sts hdst]
      · have hfind : List.find? (fun sv => sv.aliasKind == AliasKind.enu_noAlias && sv.valueReference == vr) (a :: rest) = List.find? (fun sv => sv.aliasKind == AliasKind.enu_noAlias && sv.valueReference == vr) rest :=
          List.find?_cons_of_neg _ hp
        rw [hfind] at h
        have hrest : specResolve rest vr = some sv := h
        simp only [Bool.and_eq_true, beq_iff_eq, not_and] at hp
        by_cases ha : a.aliasKind = AliasKind.enu_noAlias
        · have hv : vr ≠ a.valueReference := fun hvr => hp ha hvr.symm
          simp [outerLoop, ha, hv, ih vr sv sts hrest]
        · simp [outerLoop, ha, ih vr sv sts hrest]

theorem outerLoop_of_noNoAliasDst (f t vt : ℕ) (dst : List ScalarVariable)
    (hdst : hasNoAlias dst = false) :
    ∀ (src : List ScalarVariable) (vr : ℕ) (sts : States),
      outerLoop f vr t vt dst src sts = (sts, false, [], []) := by
  intro src
  induction src with
  | nil => intro vr sts; rfl
  | cons a rest ih =>
      intro vr sts
      by_cases ha : a.aliasKind = AliasKind.enu_noAlias
      · by_cases hv : vr = a.valueReference
        · simp [outerLoop, ha, hv, innerLoop_of_noNoAlias, hdst, ih]
        · simp [outerLoop, ha, hv, ih vr sts]
      · simp [outerLoop, ha, ih vr sts]

theorem exchangeConnection_of_notFound (fmus : ℕ → FMUDesc) (sts : States)
    (conn : Connection)
    (h : specResolve (fmus conn.fmuFrom).modelVariables conn.vrFrom = none) :
    exchangeConnection fmus sts conn = (sts, [], []) := by
  unfold exchangeConnection
  rw [outerLoop_of_notFound _ _ _ _ _ _ _ h]

theorem exchangeConnection_of_found (fmus : ℕ → FMUDesc) (sts : States)
    (conn : Connection) (sv : ScalarVariable)
    (h : specResolve (fmus conn.fmuFrom).modelVariables conn.vrFrom = some sv)
    (hdst : hasNoAlias (fmus conn.fmuTo).modelVariables = true) :
    exchangeConnection fmus sts conn =
      ((transfer sv.type conn.fmuFrom conn.vrFrom conn.fmuTo conn.vrTo sts).1, [],
        (transfer sv.type conn.fmuFrom conn.vrFrom conn.fmuTo conn.vrTo sts).2) := by
  unfold exchangeConnection
  rw [outerLoop_of_found _ _ _ _ hdst _ _ _ _ h]

theorem exchangeConnection_of_noNoAliasDst (fmus : ℕ → FMUDesc) (sts : States)
    (conn : Connection)
    (hdst : hasNoAlias (fmus conn.fmuTo).modelVariables = false) :
    exchangeConnection fmus sts conn = (sts, [], []) := by
  unfold exchangeConnection
  rw [outerLoop_of_noNoAliasDst _ _ _ _ hdst]

theorem specResolve_some_spec (vars : List ScalarVariable) (vr : ℕ)
    (sv : ScalarVariable) (h : specResolve vars vr = some sv) :
    sv.aliasKind = AliasKind.enu_noAlias ∧ sv.valueReference = vr ∧
      hasNoAlias vars = true := by
  have hm := List.mem_of_find?_eq_some h
  have hp := List.find?_some h
  simp only [Bool.and_eq_true, beq_iff_eq] at hp
  refine ⟨hp.1, hp.2, ?_⟩
  simp only [hasNoAlias, List.any_eq_true, beq_iff_eq]
  exact ⟨sv, hm, hp.1⟩

/-! Helper lemmas about the event kinds produced by the two phases. -/

theorem transfer_no_stepE (ty : ScalarType) (f vf t vt : ℕ) (sts : States) :
    ∀ ev ∈ (transfer ty f vf t vt sts).2, ev.isStep = false := by
  cases ty <;> intro ev hev <;> simp [transfer] at hev <;>
    rcases hev with h | h <;> subst h <;> rfl

theorem innerLoop_no_stepE (svFrom : ScalarVariable) (f vf t vt : ℕ) :
    ∀ (dst : List ScalarVariable) (sts : States),
      ∀ ev ∈ (innerLoop svFrom f vf t vt dst sts).2.2.2, ev.isStep = false := by
  intro dst
  induction dst with
  | nil => intro sts ev hev; simp [innerLoop] at hev
  | cons a rest ih =>
      intro sts ev hev
      by_cases ha : a.aliasKind = AliasKind.enu_noAlias
      · simp only [innerLoop, ha, ne_eq, not_true_eq_false, if_false, if_pos rfl] at hev
        exact transfer_no_stepE _ _ _ _ _ _ ev hev
      · simp only [innerLoop, ha, ne_eq, not_false_eq_true, if_true] at hev
        exact ih sts ev hev

theorem outerLoop_no_stepE (f vf t vt : ℕ) (dst : List ScalarVariable) :
    ∀ (src : List ScalarVariable) (sts : States),
      ∀ ev ∈ (outerLoop f vf t vt dst src sts).2.2.2, ev.isStep = false := by
  intro src
  induction src with
  | nil => intro sts ev hev; simp [outerLoop] at hev
  | cons a rest ih =>
      intro sts ev hev
      by_cases ha : a.aliasKind = AliasKind.enu_noAlias
      · by_cases hv : vf = a.valueReference
        · subst hv
          simp only [outerLoop, ha, ne_eq, not_true_eq_false, if_false, if_pos rfl] at hev
          by_cases hfound : (innerLoop a f a.valueReference t vt dst sts).2.1 = true
          · rw [if_pos hfound] at hev
            exact innerLoop_no_stepE _ _ _ _ _ _ _ ev (by simpa using hev)
          · rw [if_neg hfound] at hev
            have hev2 : ev ∈ (innerLoop a f a.valueReference t vt dst sts).2.2.2 ++
                (outerLoop f a.valueReference t vt dst rest
                  (innerLoop a f a.valueReference t vt dst sts).1).2.2.2 := hev
            rcases List.mem_append.mp hev2 with hev | hev
            · exact innerLoop_no_stepE _ _ _ _ _ _ _ ev (by simpa using hev)
            · exact ih _ ev hev
        · simp only [outerLoop, ha, ne_eq, not_true_eq_false, if_false, hv] at hev
          exact ih sts ev hev
      · simp only [outerLoop, ha, ne_eq, not_false_eq_true, if_true] at hev
        exact ih sts ev hev

theorem exchangeConnection_no_stepE (fmus : ℕ → FMUDesc) (sts : States)
    (conn : Connection) :
    ∀ ev ∈ (exchangeConnection fmus sts conn).2.2, ev.isStep = false := by
  intro ev hev
  exact outerLoop_no_stepE _ _ _ _ _ _ _ ev hev

theorem exchangeAll_no_stepE (fmus : ℕ → FMUDesc) :
    ∀ (conns : List Connection) (sts : States),
      ∀ ev ∈ (exchangeAll fmus conns sts).2.2, ev.isStep = false := by
  intro conns
  induction conns with
  | nil => intro sts ev hev; simp [exchangeAll] at hev
  | cons conn rest ih =>
      intro sts ev hev
      simp only [exchangeAll, List.mem_append] at hev
      rcases hev with hev | hev
      · exact exchangeConnection_no_stepE _ _ _ ev hev
      · exact ih _ ev hev

theorem stepLoop_all_stepE (env : Env) (t : ℚ) :
    ∀ (n i : ℕ) (sts : States),
      ∀ ev ∈ (stepLoop env t i n sts).2.1, ev.isStep = true := by
  intro n
  induction n with
  | zero => intro i sts ev hev; simp [stepLoop] at hev
  | succ n ih =>
      intro i sts ev hev
      by_cases hf : (env.doStepF i t (sts i)).2 ≠ Status.fmiOK
      · simp only [stepLoop, if_pos hf, List.mem_singleton] at hev
        subst hev; rfl
      · simp only [stepLoop, if_neg hf, List.mem_cons] at hev
        rcases hev with hev | hev
        · subst hev; rfl
        · exact ih _ _ ev hev

/-! Helper lemmas about the step phase. -/

theorem stepLoop_of_allOk (env : Env) (t : ℚ)
    (hok : ∀ j c, (env.doStepF j t c).2 = Status.fmiOK) :
    ∀ (n i : ℕ) (sts : States), (stepLoop env t i n sts).2.2 = none := by
  intro n
  induction n with
  | zero => intro i sts; rfl
  | succ n ih =>
      intro i sts
      have hf : ¬ (env.doStepF i t (sts i)).2 ≠ Status.fmiOK := by simp [hok]
      simp only [stepLoop, if_neg hf]
      exact ih _ _

theorem stepLoop_fail_spec (env : Env) (t : ℚ) :
    ∀ (n i : ℕ) (sts : States) (j : ℕ) (flag : Status),
      (stepLoop env t i n sts).2.2 = some (j, flag) →
      i ≤ j ∧
      (∀ k tk, Ev.stepE k tk ∈ (stepLoop env t i n sts).2.1 → k ≤ j) ∧
      (∀ k, j < k → (stepLoop env t i n sts).1 k = sts k) := by
  intro n
  induction n with
  | zero => intro i sts j flag h; simp [stepLoop] at h
  | succ n ih =>
      intro i sts j flag h
      by_cases hf : (env.doStepF i t (sts i)).2 ≠ Status.fmiOK
      · simp only [stepLoop, if_pos hf] at h ⊢
        injection h with h
        have hj : i = j := congrArg Prod.fst h
        subst hj
        refine ⟨le_refl i, ?_, ?_⟩
        · intro k tk hk
          simp only [List.mem_singleton, Ev.stepE.injEq] at hk
          exact le_of_eq hk.1
        · intro k hk
          simp [updComp, Nat.ne_of_gt hk]
      · simp only [stepLoop, if_neg hf] at h ⊢
        obtain ⟨h1, h2, h3⟩ := ih (i+1) (updComp sts i (env.doStepF i t (sts i)).1) j flag h
        refine ⟨le_trans (Nat.le_succ i) h1, ?_, ?_⟩
        · intro k tk hk
          simp only [List.mem_cons, Ev.stepE.injEq] at hk
          rcases hk with hk | hk
          · exact hk.1 ▸ le_trans (Nat.le_succ i) h1
          · exact h2 k tk hk
        · intro k hk
          rw [h3 k hk]
          have hki : k ≠ i := by omega
          simp [updComp, hki]

/-! Helper lemmas about the master loop. -/

theorem loopStep_running_of_guard_of_ok (env : Env) (ls : LoopState)
    (hg : ls.time < env.tEnd ∧ ls.status = Status.fmiOK)
    (hb : (bodyStep env ls).2.2 = none) :
    loopStep env (.running ls) = .running (advState env ls) := by
  simp only [loopStep, if_pos hg, hb]

theorem loopStep_fail_of_guard (env : Env) (ls : LoopState) (i : ℕ) (flag : Status)
    (hg : ls.time < env.tEnd ∧ ls.status = Status.fmiOK)
    (hb : (bodyStep env ls).2.2 = some (i, flag)) :
    loopStep env (.running ls) = .exitedFail (failState env ls i) i flag := by
  simp only [loopStep, if_pos hg, hb]

theorem loopStep_exitedOk_of_not_guard (env : Env) (ls : LoopState)
    (hg : ¬ (ls.time < env.tEnd ∧ ls.status = Status.fmiOK)) :
    loopStep env (.running ls) = .exitedOk ls := by
  simp only [loopStep, if_neg hg]

theorem loopStep_running_inv (env : Env) (s : LoopSt) (ls : LoopState)
    (h : loopStep env s = .running ls) :
    ∃ ls0, s = .running ls0 ∧ (ls0.time < env.tEnd ∧ ls0.status = Status.fmiOK) ∧
      (bodyStep env ls0).2.2 = none ∧ ls = advState env ls0 := by
  cases s with
  | running ls0 =>
      by_cases hg : ls0.time < env.tEnd ∧ ls0.status = Status.fmiOK
      · simp only [loopStep, if_pos hg] at h
        cases hb : (bodyStep env ls0).2.2 with
        | some p => rw [hb] at h; simp at h
        | none =>
            rw [hb] at h
            simp only [LoopSt.running.injEq] at h
            exact ⟨ls0, rfl, hg, hb, h.symm⟩
      · simp only [loopStep, if_neg hg] at h
        cases h
  | exitedOk ls0 => simp only [loopStep] at h; cases h
  | exitedFail ls0 i flag => simp only [loopStep] at h; cases h

theorem loopIter_running_spec (env : Env) (ls0 : LoopState) :
    ∀ (n : ℕ) (ls : LoopState), loopIter env n (.running ls0) = .running ls →
      ls.time = ls0.time + n * env.h ∧ ls.status = ls0.status ∧
        ls.nSteps = ls0.nSteps + n := by
  intro n
  induction n with
  | zero =>
      intro ls h
      simp only [loopIter, LoopSt.running.injEq] at h
      subst h
      simp
  | succ n ih =>
      intro ls h
      rw [loopIter] at h
      obtain ⟨ls1, hs, _, _, hadv⟩ := loopStep_running_inv env _ _ h
      obtain ⟨ht, hst, hn⟩ := ih ls1 hs
      subst hadv
      refine ⟨?_, ?_, ?_⟩
      · simp only [advState, ht]
        push_cast
        ring
      · simpa [advState] using hst
      · simp only [advState, hn]
        omega

theorem loopIter_exitedFail_absorb (env : Env) (ls : LoopState) (i : ℕ) (flag : Status) :
    ∀ m, loopIter env m (.exitedFail ls i flag) = .exitedFail ls i flag := by
  intro m
  induction m with
  | zero => rfl
  | succ m ih => rw [loopIter, ih]; rfl

theorem stTime_loopStep_le (env : Env) (hh : 0 ≤ env.h) (s : LoopSt) :
    stTime s ≤ stTime (loopStep env s) := by
  cases s with
  | running ls =>
      by_cases hg : ls.time < env.tEnd ∧ ls.status = Status.fmiOK
      · simp only [loopStep, if_pos hg]
        cases hb : (bodyStep env ls).2.2 with
        | some p => simp [stTime, failState]
        | none => simp only [stTime, advState]; linarith
      · simp [loopStep, if_neg hg, stTime]
  | exitedOk ls => simp [loopStep, stTime]
  | exitedFail ls i flag => simp [loopStep, stTime]

theorem stTrace_loopStep_eq (env : Env) (ls : LoopState) :
    stTrace (loopStep env (.running ls)) =
      (if ls.time < env.tEnd ∧ ls.status = Status.fmiOK then
        ls.trace ++ (bodyXchg env ls).2.2 ++ (bodyStep env ls).2.1
      else ls.trace) := by
  by_cases hg : ls.time < env.tEnd ∧ ls.status = Status.fmiOK
  · rw [if_pos hg]
    simp only [loopStep, if_pos hg]
    cases hb : (bodyStep env ls).2.2 with
    | some p => simp [stTrace, failState]
    | none => simp [stTrace, advState]
  · rw [if_neg hg]
    simp [loopStep, if_neg hg, stTrace]

/-! Helper lemma about the setup loop. -/

theorem initLoop_fail_spec (env : Env) :
    ∀ (n i : ℕ) (sts : States) (rows : List Row) (f : InitFail),
      initLoop env i n sts rows = .inl f →
      i ≤ f.comp ∧ f.comp < i + n ∧ f.rows = rows ++ segRows i (f.comp - i) ∧
      (f.stage = .instStage → env.instOk f.comp = false ∧ f.ret = errorRet) ∧
      (f.stage = .fileStage → env.fopenOk f.comp = false ∧ f.ret = 0) ∧
      (f.stage = .initStage → (env.initStatus f.comp).gtWarning = true ∧ f.ret = 0) := by
  intro n
  induction n with
  | zero => intro i sts rows f h; simp [initLoop] at h
  | succ n ih =>
      intro i sts rows f h
      simp only [initLoop] at h
      by_cases h1 : env.instOk i = false
      · rw [if_pos h1] at h
        injection h with h
        subst h
        refine ⟨le_refl i, Nat.lt_add_of_pos_right (Nat.succ_pos n), by simp [segRows], fun _ => ⟨h1, rfl⟩, ?_, ?_⟩
        · intro hst; cases hst
        · intro hst; cases hst
      · rw [if_neg h1] at h
        by_cases h2 : env.fopenOk i = false
        · rw [if_pos h2] at h
          injection h with h
          subst h
          refine ⟨le_refl i, Nat.lt_add_of_pos_right (Nat.succ_pos n), by simp [segRows], ?_, fun _ => ⟨h2, rfl⟩, ?_⟩
          · intro hst; cases hst
          · intro hst; cases hst
        · rw [if_neg h2] at h
          by_cases h3 : (env.initStatus i).gtWarning = true
          · rw [if_pos h3] at h
            injection h with h
            subst h
            refine ⟨le_refl i, Nat.lt_add_of_pos_right (Nat.succ_pos n), by simp [segRows], ?_, ?_, fun _ => ⟨h3, rfl⟩⟩
            · intro hst; cases hst
            · intro hst; cases hst
          · rw [if_neg h3] at h
            obtain ⟨hle, hlt, hrows, hca, hcb, hcc⟩ := ih (i+1) _ _ f h
            refine ⟨le_trans (Nat.le_succ i) hle, by omega, ?_, hca, hcb, hcc⟩
            have hd : f.comp - i = (f.comp - (i+1)) + 1 := by omega
            rw [hd, segRows, hrows, List.append_assoc]

end FmuSim

namespace FmuSim

/-! Theorems settling the claims. -/

/-- C1: the claim states that a connection whose endpoints resolve to
descriptors of differing scalar types is skipped with a diagnostic naming
both endpoints and their types.  The code instead compares the source type
with itself (main.c:149), so the mismatch branch is dead: on the connection
0/1 → 1/2 of `fmusMismatch`, whose source resolves to a Real and whose
target resolves to an Integer, no diagnostic is printed, the value is
transferred through the Real getter/setter pair, and the target's real
store at reference 2 changes from 0 to 7. -/
theorem claim1_mismatch_transfers_anyway :
    specResolve (fmusMismatch connTest.fmuFrom).modelVariables connTest.vrFrom =
      some ⟨1, .enu_noAlias, .elm_Real⟩ ∧
    specResolve (fmusMismatch connTest.fmuTo).modelVariables connTest.vrTo =
      some ⟨2, .enu_noAlias, .elm_Integer⟩ ∧
    (exchangeConnection fmusMismatch stsTest connTest).2.1 = [] ∧
    (exchangeConnection fmusMismatch stsTest connTest).2.2 =
      [Ev.getE .realCh 0 1, Ev.setE .realCh 1 2] ∧
    ((exchangeConnection fmusMismatch stsTest connTest).1 1).realV 2 = 7 ∧
    (stsTest 1).realV 2 = 0 := by decide

/-- C2: the claim states that the target endpoint is resolved like the
source (first descriptor with alias kind None and the connection's target
value reference) and that the connection is skipped when no such descriptor
exists.  The inner scan at main.c:144-146 never compares the target
descriptor's value reference with `vrTo`: on `fmusNoTargetVr`, where the
target FMU has no descriptor with reference 2 at all, the transfer is
nevertheless performed and writes the target's real store at reference 2. -/
theorem claim2_target_reference_ignored :
    specResolve (fmusNoTargetVr connTest.fmuTo).modelVariables connTest.vrTo = none ∧
    (exchangeConnection fmusNoTargetVr stsTest connTest).2.1 = [] ∧
    (exchangeConnection fmusNoTargetVr stsTest connTest).2.2 =
      [Ev.getE .realCh 0 1, Ev.setE .realCh 1 2] ∧
    ((exchangeConnection fmusNoTargetVr stsTest connTest).1 1).realV 2 = 7 := by decide

/-- C6 counterexample: the claim states that a connection whose source
value reference has no matching non-alias descriptor is skipped AND that a
diagnostic naming the indices/references is logged.  On `fmusNoSource` the
source does not resolve, the connection is indeed skipped (no get/set
events), but the diagnostic list is empty: nothing is logged on this path
(main.c:136-180 falls through silently). -/
theorem claim6_cex_unresolved_source_silent :
    specResolve (fmusNoSource connTest.fmuFrom).modelVariables connTest.vrFrom = none ∧
    (exchangeConnection fmusNoSource stsTest connTest).2.1 = [] ∧
    (exchangeConnection fmusNoSource stsTest connTest).2.2 = [] := by decide

/-- C6 (amended): source endpoint resolution scans the source component's
descriptor table in declaration order and the first descriptor with alias
kind None and matching value reference wins (`specResolve`, the spec's own
wording of resolution); a descriptor with any other alias kind is never
selected; when no match exists the connection is skipped with no transfer
and NO diagnostic (the original claim's logged diagnostic does not exist in
the code); when the target table has no non-alias descriptor the connection
is likewise skipped silently. -/
theorem claim6_source_resolution (fmus : ℕ → FMUDesc) (sts : States) (conn : Connection) :
    (specResolve (fmus conn.fmuFrom).modelVariables conn.vrFrom = none →
      exchangeConnection fmus sts conn = (sts, [], [])) ∧
    (∀ sv : ScalarVariable,
      specResolve (fmus conn.fmuFrom).modelVariables conn.vrFrom = some sv →
      hasNoAlias (fmus conn.fmuTo).modelVariables = true →
      exchangeConnection fmus sts conn =
        ((transfer sv.type conn.fmuFrom conn.vrFrom conn.fmuTo conn.vrTo sts).1, [],
          (transfer sv.type conn.fmuFrom conn.vrFrom conn.fmuTo conn.vrTo sts).2)) ∧
    (hasNoAlias (fmus conn.fmuTo).modelVariables = false →
      exchangeConnection fmus sts conn = (sts, [], [])) := by
  exact ⟨fun h => exchangeConnection_of_notFound fmus sts conn h,
    fun sv h hdst => exchangeConnection_of_found fmus sts conn sv h hdst,
    fun hdst => exchangeConnection_of_noNoAliasDst fmus sts conn hdst⟩

/-- Witness for C6: the amended theorem applied to the concrete fixtures:
an unresolvable source is skipped silently, and a resolvable source
transfers through the first matching non-alias descriptor's type. -/
theorem claim6_witness :
    exchangeConnection fmusNoSource stsTest connTest = (stsTest, [], []) ∧
    exchangeConnection fmusMatch stsTest connTest =
      ((transfer ScalarType.elm_Real connTest.fmuFrom connTest.vrFrom
          connTest.fmuTo connTest.vrTo stsTest).1, [],
        (transfer ScalarType.elm_Real connTest.fmuFrom connTest.vrFrom
          connTest.fmuTo connTest.vrTo stsTest).2) := by
  refine ⟨(claim6_source_resolution fmusNoSource stsTest connTest).1 (by decide), ?_⟩
  exact (claim6_source_resolution fmusMatch stsTest connTest).2.1
    ⟨1, .enu_noAlias, .elm_Real⟩ (by decide) (by decide)

/-- C7: for a connection whose endpoints (resolved as the spec words it)
share a scalar type, the iteration performs exactly one typed get on the
source followed by exactly one typed set on the target, on the channel of
that shared type (Integer and Enumeration on the integer pair), and
afterwards the target's value at the target reference equals the source's
value as observed immediately before the exchange; moreover one loop
iteration's trace is the exchange events followed by the step events, the
exchange phase producing only get/set events and the step phase only
`doStep` events, so all exchanges of an interval complete before any step
of that interval begins. -/
theorem claim7_exchange_semantics :
    (∀ (fmus : ℕ → FMUDesc) (sts : States) (conn : Connection)
        (svF svT : ScalarVariable),
      specResolve (fmus conn.fmuFrom).modelVariables conn.vrFrom = some svF →
      specResolve (fmus conn.fmuTo).modelVariables conn.vrTo = some svT →
      svF.type = svT.type →
      (exchangeConnection fmus sts conn).2.2 =
        [Ev.getE (chanOf svF.type) conn.fmuFrom conn.vrFrom,
         Ev.setE (chanOf svF.type) conn.fmuTo conn.vrTo] ∧
      readVal (chanOf svF.type)
          ((exchangeConnection fmus sts conn).1 conn.fmuTo) conn.vrTo =
        readVal (chanOf svF.type) (sts conn.fmuFrom) conn.vrFrom) ∧
    (∀ (env : Env) (ls : LoopState),
      stTrace (loopStep env (.running ls)) =
        (if ls.time < env.tEnd ∧ ls.status = Status.fmiOK then
          ls.trace ++ (bodyXchg env ls).2.2 ++ (bodyStep env ls).2.1
        else ls.trace) ∧
      (∀ ev ∈ (bodyXchg env ls).2.2, ev.isStep = false) ∧
      (∀ ev ∈ (bodyStep env ls).2.1, ev.isStep = true)) := by
  constructor
  · intro fmus sts conn svF svT hF hT hty
    obtain ⟨_, _, hdst⟩ := specResolve_some_spec _ _ _ hT
    rw [exchangeConnection_of_found fmus sts conn svF hF hdst]
    exact ⟨transfer_events _ _ _ _ _ _, transfer_read _ _ _ _ _ _⟩
  · intro env ls
    refine ⟨stTrace_loopStep_eq env ls, ?_, ?_⟩
    · intro ev hev
      exact exchangeAll_no_stepE env.fmus env.connections ls.sts ev hev
    · intro ev hev
      exact stepLoop_all_stepE env ls.time env.N 0 _ ev hev

/-- Witness for C7: the theorem applied to the matched connection of
`fmusMatch` (one Real get then one Real set, value 7 carried over) and to
the concrete run `envLoop`, whose exchange produces a get event (not a
step) and whose step phase produces a step event. -/
theorem claim7_witness :
    (exchangeConnection fmusMatch stsTest connTest).2.2 =
      [Ev.getE (chanOf ScalarType.elm_Real) connTest.fmuFrom connTest.vrFrom,
       Ev.setE (chanOf ScalarType.elm_Real) connTest.fmuTo connTest.vrTo] ∧
    readVal (chanOf ScalarType.elm_Real)
        ((exchangeConnection fmusMatch stsTest connTest).1 connTest.fmuTo) connTest.vrTo =
      readVal (chanOf ScalarType.elm_Real) (stsTest connTest.fmuFrom) connTest.vrFrom ∧
    Ev.isStep (Ev.getE Chan.realCh 0 1) = false ∧
    Ev.isStep (Ev.stepE 0 0) = true := by
  obtain ⟨h1, h2⟩ := claim7_exchange_semantics.1 fmusMatch stsTest connTest
    ⟨1, .enu_noAlias, .elm_Real⟩ ⟨2, .enu_noAlias, .elm_Real⟩ (by decide) (by decide) rfl
  refine ⟨h1, h2, ?_, ?_⟩
  · exact (claim7_exchange_semantics.2 envLoop lsTest).2.1 (Ev.getE Chan.realCh 0 1) (by decide)
  · exact (claim7_exchange_semantics.2 envLoop lsTest).2.2 (Ev.stepE 0 0) (by decide)

end FmuSim

namespace FmuSim

/-! Loop-level helper for all-successful runs. -/

theorem loopIter_allOk_running (env : Env) (ls0 : LoopState)
    (hok : ∀ j t c, (env.doStepF j t c).2 = Status.fmiOK)
    (h0 : ls0.time = 0) (hst : ls0.status = Status.fmiOK) :
    ∀ n : ℕ, (∀ j : ℕ, j < n → (j : ℚ) * env.h < env.tEnd) →
      ∃ ls, loopIter env n (.running ls0) = .running ls ∧
        ls.time = n * env.h ∧ ls.status = Status.fmiOK ∧
        ls.nSteps = ls0.nSteps + n := by
  intro n
  induction n with
  | zero => intro _; exact ⟨ls0, rfl, by simp [h0], hst, by simp⟩
  | succ n ih =>
      intro hlt
      obtain ⟨ls, hrun, ht, hs, hn⟩ := ih (fun j hj => hlt j (Nat.lt_succ_of_lt hj))
      have hg : ls.time < env.tEnd ∧ ls.status = Status.fmiOK :=
        ⟨by rw [ht]; exact hlt n (Nat.lt_succ_self n), hs⟩
      have hb : (bodyStep env ls).2.2 = none :=
        stepLoop_of_allOk env ls.time (fun j c => hok j ls.time c) env.N 0 _
      have hstep : loopIter env (n+1) (.running ls0) =
          loopStep env (loopIter env n (.running ls0)) := rfl
      refine ⟨advState env ls, ?_, ?_, hs, ?_⟩
      · rw [hstep, hrun, loopStep_running_of_guard_of_ok env ls hg hb]
      · simp only [advState, ht]
        push_cast
        ring
      · simp only [advState, hn]
        omega

/-- C3: the claim states that every successfully instantiated component is
driven through terminate and then dispose exactly once, however the run
ended.  On `envStepFail` the single FMU is instantiated and initialized,
its `doStep` fails, and `simulate` returns 0 from inside the loop
(main.c:189) without ever reaching the cleanup section at main.c:204-207:
no FMU receives `terminateSlave` or `freeSlaveInstance`. -/
theorem claim3_no_cleanup_after_step_failure :
    (simulate envStepFail 10).ret = some 0 ∧
    (simulate envStepFail 10).instantiated = [0] ∧
    (simulate envStepFail 10).initialized = [0] ∧
    (simulate envStepFail 10).terminated = [] ∧
    (simulate envStepFail 10).disposed = [] := by decide

/-- C4: the claim states that a run with any fatal status is reported to
the caller as a failure.  On `envStepFail` the `doStep` failure makes
`simulate` return 0 (failure), but `main` discards that value at
main.c:243 and returns `EXIT_SUCCESS` unconditionally at main.c:262, so
the process reports success. -/
theorem claim4_main_reports_success_after_failure :
    (simulate envStepFail 10).ret = some 0 ∧
    (mainRun envStepFail 10).2 = EXIT_SUCCESS :=
  ⟨by decide, rfl⟩

/-- C5: when some component's `doStep` returns a non-OK status, the loop
exits immediately through `return 0`: the failure state keeps the clock,
the rows and the step count untouched (no advance, no row for the failed
interval, all previously emitted rows preserved), every `doStep` event of
the failing iteration concerns a component index at most the failing one
and the states of later components are exactly what the exchange phase
left (they are never stepped), the exited state is absorbing (no further
exchange, step or row ever occurs), and on this path `simulate` reports
failure (return value 0) with exactly the rows accumulated so far. -/
theorem claim5_step_failure_halts :
    (∀ (env : Env) (ls : LoopState) (i : ℕ) (flag : Status),
      ls.time < env.tEnd → ls.status = Status.fmiOK →
      (bodyStep env ls).2.2 = some (i, flag) →
      loopStep env (.running ls) = .exitedFail (failState env ls i) i flag ∧
      (failState env ls i).time = ls.time ∧
      (failState env ls i).rows = ls.rows ∧
      (failState env ls i).nSteps = ls.nSteps ∧
      (∀ k tk, Ev.stepE k tk ∈ (bodyStep env ls).2.1 → k ≤ i) ∧
      (∀ k, i < k → (bodyStep env ls).1 k = (bodyXchg env ls).1 k) ∧
      (∀ m, loopIter env m (.exitedFail (failState env ls i) i flag) =
        .exitedFail (failState env ls i) i flag)) ∧
    (∀ (env : Env) (fuel : ℕ),
      initFailP env = none → isFailB (loopRun env fuel) = true →
      (simulate env fuel).ret = some 0 ∧
      (simulate env fuel).rows = stRows (loopRun env fuel) ∧
      (simulate env fuel).nSteps = stNSteps (loopRun env fuel) ∧
      (simulate env fuel).trace = stTrace (loopRun env fuel)) := by
  constructor
  · intro env ls i flag hg hok hb
    obtain ⟨_, h2, h3⟩ := stepLoop_fail_spec env ls.time env.N 0 _ i flag hb
    exact ⟨loopStep_fail_of_guard env ls i flag ⟨hg, hok⟩ hb, rfl, rfl, rfl, h2, h3,
      loopIter_exitedFail_absorb env _ i flag⟩
  · intro env fuel hinit hfail
    unfold initFailP at hinit
    cases hres : initRes env with
    | inl f => rw [hres] at hinit; simp at hinit
    | inr p =>
        cases hrun : loopRun env fuel with
        | running ls => rw [hrun] at hfail; simp [isFailB] at hfail
        | exitedOk ls => rw [hrun] at hfail; simp [isFailB] at hfail
        | exitedFail ls i flag =>
            unfold simulate
            rw [hres, hrun]
            exact ⟨rfl, rfl, rfl, rfl⟩

/-- Witness for C5: on `envStepFail` the failed first step exits the loop
into the absorbing failure state and the run reports 0 with the setup rows
kept. -/
theorem claim5_witness :
    loopStep envStepFail (.running (lsAt 0)) =
      .exitedFail (failState envStepFail (lsAt 0) 0) 0 Status.fmiError ∧
    (simulate envStepFail 10).ret = some 0 ∧
    (simulate envStepFail 10).rows = stRows (loopRun envStepFail 10) := by
  refine ⟨(claim5_step_failure_halts.1 envStepFail (lsAt 0) 0 Status.fmiError
    (by decide) rfl (by decide)).1, ?_, ?_⟩
  · exact (claim5_step_failure_halts.2 envStepFail 10 (by decide) (by decide)).1
  · exact (claim5_step_failure_halts.2 envStepFail 10 (by decide) (by decide)).2.1

/-- C8 counterexample: the claim asserts the current time is monotonically
non-decreasing for every run, but nothing guards the step size: with
`envNeg` (step size -1) one fully successful iteration takes the clock
from 0 to -1, strictly decreasing. -/
theorem claim8_cex_time_decreases :
    stTime (loopIter envNeg 1 (.running (lsAt 0))) <
      stTime (loopIter envNeg 0 (.running (lsAt 0))) := by
  have h1 : loopIter envNeg 1 (.running (lsAt 0)) =
      .running (advState envNeg (lsAt 0)) := rfl
  rw [h1]
  show (lsAt 0).time + envNeg.h < (lsAt 0).time
  norm_num [lsAt, envNeg]

/-- C8 (amended, restricted to nonnegative step sizes as the
counterexample forces): after n iterations that left the loop running the
clock reads the start time plus n times the step size exactly (time is an
exact rational here, so the floating tolerance is 0); when the step size
is nonnegative the clock is monotonically non-decreasing over iterations;
and from a running state with OK status the loop leaves its running state
exactly when the clock has reached the end time or the step phase failed,
never earlier. -/
theorem claim8_clock (env : Env) (ls0 : LoopState) :
    (∀ (n : ℕ) (ls : LoopState), loopIter env n (.running ls0) = .running ls →
      ls.time = ls0.time + n * env.h) ∧
    (0 ≤ env.h → Monotone fun n => stTime (loopIter env n (.running ls0))) ∧
    (∀ ls : LoopState, ls.status = Status.fmiOK →
      (isRunningB (loopStep env (.running ls)) = false ↔
        env.tEnd ≤ ls.time ∨ (bodyStep env ls).2.2 ≠ none)) := by
  refine ⟨fun n ls h => (loopIter_running_spec env ls0 n ls h).1, ?_, ?_⟩
  · intro hh
    apply monotone_nat_of_le_succ
    intro n
    exact stTime_loopStep_le env hh _
  · intro ls hok
    constructor
    · intro h
      by_cases hg : ls.time < env.tEnd ∧ ls.status = Status.fmiOK
      · cases hb : (bodyStep env ls).2.2 with
        | none =>
            rw [loopStep_running_of_guard_of_ok env ls hg hb] at h
            simp [isRunningB] at h
        | some p => right; simp [hb]
      · left
        rcases not_and_or.mp hg with h1 | h2
        · exact le_of_not_lt h1
        · exact absurd hok h2
    · intro h
      by_cases hg : ls.time < env.tEnd ∧ ls.status = Status.fmiOK
      · rcases h with h | h
        · exact absurd hg.1 (not_lt.mpr h)
        · cases hb : (bodyStep env ls).2.2 with
          | none => exact absurd hb h
          | some p =>
              rw [loopStep_fail_of_guard env ls p.1 p.2 hg (by rw [hb])]
              rfl
      · rw [loopStep_exitedOk_of_not_guard env ls hg]
        rfl

/-- Witness for C8: on `envPos` one iteration advances the clock by one
step size, the clock is non-decreasing between iterations 0 and 2, and at
a clock value past the end time the loop is no longer running. -/
theorem claim8_witness :
    (advState envPos (lsAt 0)).time = (lsAt 0).time + 1 * envPos.h ∧
    stTime (loopIter envPos 0 (.running (lsAt 0))) ≤
      stTime (loopIter envPos 2 (.running (lsAt 0))) ∧
    (isRunningB (loopStep envPos (.running (lsAt 2))) = false ↔
      envPos.tEnd ≤ (lsAt 2).time ∨ (bodyStep envPos (lsAt 2)).2.2 ≠ none) := by
  refine ⟨(claim8_clock envPos (lsAt 0)).1 1 (advState envPos (lsAt 0)) rfl, ?_, ?_⟩
  · exact (claim8_clock envPos (lsAt 0)).2.1 (by decide) (by decide)
  · exact (claim8_clock envPos (lsAt 0)).2.2 (lsAt 2) rfl

/-- C9 counterexample: the claim asserts that a null instantiation handle
aborts before any further state (no initialization, no output header or
row for any component).  The setup loop of main.c:77-107 instead runs the
whole sequence per FMU: on `envInstFail2`, where FMU 1 fails to
instantiate, FMU 0 has already been initialized and has already emitted
its header and first value row. -/
theorem claim9_cex_earlier_component_already_initialized :
    initFailP envInstFail2 = some ⟨.instStage, 1, 0, segRows 0 1⟩ ∧
    (simulate envInstFail2 5).rows = [⟨0, 0, true⟩, ⟨0, 0, false⟩] ∧
    (simulate envInstFail2 5).initialized = [0] := by decide

/-- C9 (amended): the setup is per component, in index order: when setup
aborts at component `f.comp`, exactly the components before it have been
instantiated, initialized and have emitted their header and start-time
rows (`segRows 0 f.comp`), the loop is never entered (no steps, no FMI
call events), `simulate` returns the abort value; a null instantiation
handle means that component's instantiation failed and only earlier
components count as instantiated; an initialize status worse than Warning
aborts before the loop likewise. -/
theorem claim9_setup_abort (env : Env) (fuel : ℕ) (f : InitFail)
    (hf : initFailP env = some f) :
    (simulate env fuel).ret = some f.ret ∧
    (simulate env fuel).rows = f.rows ∧
    (simulate env fuel).nSteps = 0 ∧
    (simulate env fuel).trace = [] ∧
    f.rows = segRows 0 f.comp ∧
    f.comp < env.N ∧
    (simulate env fuel).initialized = List.range f.comp ∧
    (f.stage = .instStage → env.instOk f.comp = false ∧
      (simulate env fuel).instantiated = List.range f.comp) ∧
    (f.stage = .initStage → (env.initStatus f.comp).gtWarning = true) := by
  unfold initFailP at hf
  cases hres : initRes env with
  | inr p => rw [hres] at hf; simp at hf
  | inl g =>
      rw [hres] at hf
      simp only [Option.some.injEq] at hf
      subst hf
      obtain ⟨h0, hlt, hrows, hinst, hfile, hinit2⟩ :=
        initLoop_fail_spec env env.N 0 (fun _ => defaultComp) [] g hres
      refine ⟨?_, ?_, ?_, ?_, ?_, ?_, ?_, ?_, fun hst => (hinit2 hst).1⟩
      · unfold simulate; rw [hres]
      · unfold simulate; rw [hres]
      · unfold simulate; rw [hres]
      · unfold simulate; rw [hres]
      · simpa using hrows
      · simpa using hlt
      · unfold simulate; rw [hres]
      · intro hst
        refine ⟨(hinst hst).1, ?_⟩
        have hmatch : (simulate env fuel).instantiated =
            (match g.stage with
             | FailStage.instStage => List.range g.comp
             | _ => List.range (g.comp + 1)) := by
          unfold simulate; rw [hres]
        rw [hmatch, hst]

/-- Witness for C9: the amended theorem applied to `envInstFail2`, whose
setup aborts at component 1 in the instantiation stage. -/
theorem claim9_witness :
    (simulate envInstFail2 5).ret = some 0 ∧
    (simulate envInstFail2 5).nSteps = 0 ∧
    (simulate envInstFail2 5).instantiated = List.range 1 ∧
    envInstFail2.instOk 1 = false := by
  obtain ⟨h1, _, h3, _, _, _, _, h8, _⟩ :=
    claim9_setup_abort envInstFail2 5 ⟨.instStage, 1, 0, segRows 0 1⟩ (by decide)
  obtain ⟨h8a, h8b⟩ := h8 rfl
  exact ⟨h1, h3, h8b, h8a⟩

/-- C10: with a strictly positive step size and all calls succeeding, the
loop performs exactly `stepsNeeded env` iterations, the least `K` with
`K * h` at or past the end time (it is still running at every earlier
count and no longer running after `K + 1` attempts, with `nSteps = K`);
and nothing guards against a nonpositive step size: with `h ≤ 0`,
`startTime = 0 < endTime` and all calls succeeding, the loop is still
running after every number of iterations. -/
theorem claim10_termination :
    (∀ (env : Env) (ls0 : LoopState),
      (∀ j t c, (env.doStepF j t c).2 = Status.fmiOK) →
      0 < env.h → ls0.time = 0 → ls0.status = Status.fmiOK →
      env.tEnd ≤ (stepsNeeded env : ℚ) * env.h ∧
      (∀ j : ℕ, j < stepsNeeded env → (j : ℚ) * env.h < env.tEnd) ∧
      (∀ n : ℕ, n ≤ stepsNeeded env →
        isRunningB (loopIter env n (.running ls0)) = true) ∧
      isRunningB (loopIter env (stepsNeeded env + 1) (.running ls0)) = false ∧
      stNSteps (loopIter env (stepsNeeded env + 1) (.running ls0)) =
        ls0.nSteps + stepsNeeded env) ∧
    (∀ (env : Env) (ls0 : LoopState),
      (∀ j t c, (env.doStepF j t c).2 = Status.fmiOK) →
      env.h ≤ 0 → 0 < env.tEnd → ls0.time = 0 → ls0.status = Status.fmiOK →
      ∀ n, isRunningB (loopIter env n (.running ls0)) = true) := by
  constructor
  · intro env ls0 hok hh h0 hst
    have hKb : env.tEnd / env.h ≤ (stepsNeeded env : ℚ) := by
      refine le_trans (Int.le_ceil _) ?_
      rw [stepsNeeded]
      exact_mod_cast Int.self_le_toNat _
    have hKa : env.tEnd ≤ (stepsNeeded env : ℚ) * env.h :=
      (div_le_iff₀ hh).mp hKb
    have hKlt : ∀ j : ℕ, j < stepsNeeded env → (j : ℚ) * env.h < env.tEnd := by
      intro j hj
      have hjz : (j : ℤ) < Int.ceil (env.tEnd / env.h) := by
        rw [stepsNeeded] at hj
        exact Int.lt_toNat.mp hj
      have hjq : (j : ℚ) < env.tEnd / env.h := by
        exact_mod_cast Int.lt_ceil.mp hjz
      exact (lt_div_iff₀ hh).mp hjq
    refine ⟨hKa, hKlt, ?_, ?_, ?_⟩
    · intro n hn
      obtain ⟨ls, hrun, -, -, -⟩ := loopIter_allOk_running env ls0 hok h0 hst n
        (fun j hj => hKlt j (lt_of_lt_of_le hj hn))
      rw [hrun]
      rfl
    · obtain ⟨ls, hrun, ht, hs, hn⟩ :=
        loopIter_allOk_running env ls0 hok h0 hst (stepsNeeded env) hKlt
      have hng : ¬ (ls.time < env.tEnd ∧ ls.status = Status.fmiOK) := by
        rw [ht]
        exact fun hcon => absurd hKa (not_le.mpr hcon.1)
      have hstep : loopIter env (stepsNeeded env + 1) (.running ls0) =
          loopStep env (loopIter env (stepsNeeded env) (.running ls0)) := rfl
      rw [hstep, hrun, loopStep_exitedOk_of_not_guard env ls hng]
      rfl
    · obtain ⟨ls, hrun, ht, hs, hn⟩ :=
        loopIter_allOk_running env ls0 hok h0 hst (stepsNeeded env) hKlt
      have hng : ¬ (ls.time < env.tEnd ∧ ls.status = Status.fmiOK) := by
        rw [ht]
        exact fun hcon => absurd hKa (not_le.mpr hcon.1)
      have hstep : loopIter env (stepsNeeded env + 1) (.running ls0) =
          loopStep env (loopIter env (stepsNeeded env) (.running ls0)) := rfl
      rw [hstep, hrun, loopStep_exitedOk_of_not_guard env ls hng]
      simpa [stNSteps] using hn
  · intro env ls0 hok hh hT h0 hst n
    have hlt : ∀ j : ℕ, j < n → (j : ℚ) * env.h < env.tEnd := by
      intro j _
      have hnp : (j : ℚ) * env.h ≤ 0 :=
        mul_nonpos_iff.mpr (Or.inl ⟨Nat.cast_nonneg j, hh⟩)
      exact lt_of_le_of_lt hnp hT
    obtain ⟨ls, hrun, -, -, -⟩ := loopIter_allOk_running env ls0 hok h0 hst n hlt
    rw [hrun]
    rfl

/-- Witness for C10: on `envPos` (step 1, end time 2) the loop is running
after `stepsNeeded envPos` iterations and stopped after one more; on
`envNeg` (step -1) it is still running after 5 iterations. -/
theorem claim10_witness :
    isRunningB (loopIter envPos (stepsNeeded envPos) (.running (lsAt 0))) = true ∧
    isRunningB (loopIter envPos (stepsNeeded envPos + 1) (.running (lsAt 0))) = false ∧
    isRunningB (loopIter envNeg 5 (.running (lsAt 0))) = true := by
  have h := claim10_termination.1 envPos (lsAt 0) (fun _ _ _ => rfl) (by decide) rfl rfl
  exact ⟨h.2.2.1 _ le_rfl, h.2.2.2.1,
    claim10_termination.2 envNeg (lsAt 0) (fun _ _ _ => rfl) (by decide) (by decide) rfl rfl 5⟩

end FmuSim
